import Mathlib

set_option linter.unusedVariables false

/-! Shallow embedding of the node-system layer of the flows workflow library
(src/nodesystem.go).  Go slices become Lean lists, Go maps become association
lists whose iteration order is first-insertion order (Go map iteration order is
unspecified, and no checked property depends on it), Go in-place mutation of the
receiver becomes explicit state passing: each builder operation returns the
updated `NodeSystem` together with the Go `(bool, error)` result, an `error`
being `Option String` (`none` = Go `nil`). -/

/-- Modelled from the spec: node.go is not under src/.  Per spec section 3 a
Node is a polymorphic value with identity (pointer/handle equality) and a
DecideCapability operation; per the design notes (section 9) nodes are given
stable integer handles.  The Compute operation plays no role in the
node-system layer. -/
structure Node where
  id : Nat
  DecideCapability : Bool
deriving DecidableEq, Inhabited

/-- Modelled from the spec: joinmode.go is not under src/.  Per spec section 3,
JoinMode is one of None, And, Or (stable names JoinNone, JoinAnd, JoinOr). -/
inductive JoinMode where
  | None
  | And
  | Or
deriving DecidableEq, Inhabited

abbrev JoinNone : JoinMode := JoinMode.None

abbrev JoinAnd : JoinMode := JoinMode.And

abbrev JoinOr : JoinMode := JoinMode.Or

/-- Modelled from the spec: nodelink.go is not under src/.  Per spec section 3 a
link is the triple (from, to, branch : Option bool); per section 4.D links with
the same from node and the same branch label share an index bucket, so the
branch is stored and compared by its label.  Links are only ever constructed by
`addLink`, which rejects nil endpoints, so the endpoint fields are plain
nodes. -/
structure nodeLink where
  From : Node
  To : Node
  Branch : Option Bool
deriving DecidableEq, Inhabited

def newNodeLink (fromNode toNode : Node) : nodeLink :=
  { From := fromNode, To := toNode, Branch := none }

def newNodeLinkOnBranch (fromNode toNode : Node) (branch : Bool) : nodeLink :=
  { From := fromNode, To := toNode, Branch := some branch }

/-- Association-list lookup for the `nodesJoinModes` map. -/
def jmLookup : List (Node × JoinMode) → Node → Option JoinMode
  | [], _ => none
  | (k, m) :: rest, n => if k == n then some m else jmLookup rest n

/-- Association-list assignment for the `nodesJoinModes` map (last write
wins, as for a Go map). -/
def jmSet : List (Node × JoinMode) → Node → JoinMode → List (Node × JoinMode)
  | [], n, m => [(n, m)]
  | (k, v) :: rest, n, m => if k == n then (k, m) :: rest else (k, v) :: jmSet rest n m

/-- The nested `map[Node]map[*bool][]Node` follow/ancestors indices, as nested
association lists keyed by node and branch label. -/
abbrev NodeTree := List (Node × List (Option Bool × List Node))

structure NodeSystem where
  activated : Bool
  nodes : List Node
  nodesJoinModes : List (Node × JoinMode)
  links : List nodeLink
  initialNodes : List Node
  followingNodesTree : NodeTree
  ancestorsNodesTree : NodeTree
deriving DecidableEq, Inhabited

def NewNodeSystem : NodeSystem :=
  { activated := false, nodes := [], nodesJoinModes := [], links := [],
    initialNodes := [], followingNodesTree := [], ancestorsNodesTree := [] }

/-! Error messages of the builder, activation and query operations, as in the
Go source (an apostrophe is written with its character code). -/

def freezeAddNodeMsg : String :=
  "can\x27t add node, node system is " ++ "freeze due to activation"

def freezeJoinModeMsg : String :=
  "can\x27t add node join mode, node system is " ++ "freeze due to activation"

def freezeAddLinkMsg : String :=
  "can\x27t add branch link, node system is " ++ "freeze due to activation"

def missingFromMsg : String := "can\x27t have missing \x27from\x27 attribute"

def missingBranchMsg : String := "can\x27t have missing branch"

def notNeededBranchMsg : String := "can\x27t have not needed branch"

def missingToMsg : String := "can\x27t have missing \x27to\x27 attribute"

def selfLinkMsg : String := "can\x27t have link on from and to the same node"

def activateUnvalidatedMsg : String := "can\x27t activate a unvalidated node system"

def followNotActivatedMsg : String := "can\x27t follow a node if system is not activated"

def ancestorsNotActivatedMsg : String :=
  "can\x27t get ancestors of a node if system is not activated"

/-- Go `AddNode`. -/
def AddNode (s : NodeSystem) (n : Node) : NodeSystem × Bool × Option String :=
  if s.activated then (s, false, some freezeAddNodeMsg)
  else ({ s with nodes := s.nodes ++ [n] }, true, none)

/-- Go `ConfigureJoinModeOnNode`. -/
def ConfigureJoinModeOnNode (s : NodeSystem) (n : Node) (m : JoinMode) :
    NodeSystem × Bool × Option String :=
  if s.activated then (s, false, some freezeJoinModeMsg)
  else ({ s with nodesJoinModes := jmSet s.nodesJoinModes n m }, true, none)

/-- Go `addLink`.  The from/to parameters are nilable Go interface values,
hence `Option Node` here. -/
def addLink (s : NodeSystem) (fromNode toNode : Option Node) (branch : Option Bool) :
    NodeSystem × Bool × Option String :=
  if s.activated then (s, false, some freezeAddLinkMsg)
  else
    match fromNode with
    | none => (s, false, some missingFromMsg)
    | some f =>
      if branch.isNone && f.DecideCapability then (s, false, some missingBranchMsg)
      else if branch.isSome && !f.DecideCapability then (s, false, some notNeededBranchMsg)
      else
        match toNode with
        | none => (s, false, some missingToMsg)
        | some t =>
          if f == t then (s, false, some selfLinkMsg)
          else
            match branch with
            | none => ({ s with links := s.links ++ [newNodeLink f t] }, true, none)
            | some b => ({ s with links := s.links ++ [newNodeLinkOnBranch f t b] }, true, none)

/-- Go `AddLink`. -/
def AddLink (s : NodeSystem) (fromNode toNode : Option Node) : NodeSystem × Bool × Option String :=
  addLink s fromNode toNode none

/-- Go `AddLinkOnBranch`. -/
def AddLinkOnBranch (s : NodeSystem) (fromNode toNode : Option Node) (branch : Bool) :
    NodeSystem × Bool × Option String :=
  addLink s fromNode toNode (some branch)

/-- Go `haveNode`. -/
def haveNode (s : NodeSystem) (n : Node) : Bool :=
  s.nodes.any (fun node => node == n)

/-- Go `JoinModeOfNode`. -/
def JoinModeOfNode (s : NodeSystem) (n : Node) : JoinMode :=
  match jmLookup s.nodesJoinModes n with
  | some mode => mode
  | none => JoinNone

/-- The validation errors collected by `IsValid`.  The Go code builds them with
`fmt.Errorf`; each constructor carries exactly the data interpolated into the
corresponding format string, so two errors are equal precisely when their
messages would be. -/
inductive ValidationError where
  | orphanMultiBranchesNode (n : Node)
  | cyclicRedundancy (cycle : List nodeLink)
  | undeclaredFromNode (n : Node) (link : nodeLink)
  | undeclaredToNode (n : Node) (link : nodeLink)
  | multipleInstancesOfSameNode (count : Nat) (n : Node)
  | multipleLinksWithoutJoinMode (count : Nat) (n : Node)
deriving DecidableEq, Inhabited

/-- Go `checkForOrphanMultiBranchesNode`: one error for each decision node with
no outgoing link. -/
def checkForOrphanMultiBranchesNode (s : NodeSystem) : List ValidationError :=
  (s.nodes.filter (fun node =>
    node.DecideCapability && !(s.links.any (fun link => link.From == node)))).map
    (fun node => ValidationError.orphanMultiBranchesNode node)

/-- The anonymous `nodeLinkSliceComparator` of Go
`checkForCyclicRedundancyInNodeLinks`: true when every link of `x` occurs in
`y`. -/
def nodeLinkSliceEqual (x y : List nodeLink) : Bool :=
  (x.filter (fun xItem => y.contains xItem)).length == x.length

/-- Go `findCycle`, with an explicit recursion-depth bound `fuel` (the Go
function is plainly recursive; `none` marks the fuel running out, which the
termination theorem below shows never happens from fuel `s.links.length + 1`).
Written with a bare `Nat.rec` so that the definition is structurally recursive
and evaluates inside the kernel. -/
def findCycleF (fuel : Nat) (s : NodeSystem) (topNode : Node) :
    Node → List nodeLink → Option (List (List nodeLink)) :=
  Nat.rec (motive := fun _ => Node → List nodeLink → Option (List (List nodeLink)))
    (fun _ _ => none)
    (fun _ ih currentNode walked =>
      if !walked.isEmpty && topNode == currentNode then
        some [walked]
      else if !walked.isEmpty && walked.any (fun link => currentNode == link.From) then
        some []
      else
        let selectedLinks := s.links.filter (fun link => link.From == currentNode)
        if selectedLinks.isEmpty then
          some []
        else
          match selectedLinks.mapM (fun link => ih link.To (walked ++ [link])) with
          | none => none
          | some cycles => some cycles.flatten)
    fuel

/-- Go `findCycle` (the fuel `s.links.length + 1` is proven sufficient for
every input, see the termination theorem below). -/
def findCycle (s : NodeSystem) (topNode currentNode : Node) (walked : List nodeLink) :
    List (List nodeLink) :=
  (findCycleF (s.links.length + 1) s topNode currentNode walked).getD []

/-- Go `checkForCyclicRedundancyInNodeLinks`. -/
def checkForCyclicRedundancyInNodeLinks (s : NodeSystem) : List ValidationError :=
  let cycles := s.nodes.foldl (fun acc node => acc ++ findCycle s node node []) []
  let trimmedCycles := cycles.foldl (fun trimmed cycle =>
    if trimmed.any (fun trimmedCycle => nodeLinkSliceEqual cycle trimmedCycle) then trimmed
    else trimmed ++ [cycle]) []
  trimmedCycles.map (fun cycle => ValidationError.cyclicRedundancy cycle)

/-- Go `checkForUndeclaredNodeInNodeLink`.  The Go nil-guards on the link
endpoints are omitted: links are built by `addLink` alone, which rejects nil
endpoints, so the endpoint fields of the embedded `nodeLink` are plain
nodes. -/
def checkForUndeclaredNodeInNodeLink (s : NodeSystem) : List ValidationError :=
  s.links.flatMap (fun link =>
    (if !haveNode s link.From then [ValidationError.undeclaredFromNode link.From link] else [])
      ++ (if !haveNode s link.To then [ValidationError.undeclaredToNode link.To link] else []))

/-- Increment of the `count` Go map (`count[n]++`). -/
def countAdd : List (Node × Nat) → Node → List (Node × Nat)
  | [], n => [(n, 1)]
  | (k, c) :: rest, n => if k == n then (k, c + 1) :: rest else (k, c) :: countAdd rest n

/-- Lookup in the `count` Go map (missing key reads as 0). -/
def countOf : List (Node × Nat) → Node → Nat
  | [], _ => 0
  | (k, c) :: rest, n => if k == n then c else countOf rest n

/-- The `count` map built by the index double loop of Go
`checkForMultipleInstanceOfSameNode`. -/
def multipleInstanceCount (s : NodeSystem) : List (Node × Nat) :=
  (List.range s.nodes.length).foldl (fun count i =>
    (List.range s.nodes.length).foldl (fun count j =>
      if i != j && s.nodes[i]! == s.nodes[j]! then countAdd count s.nodes[i]! else count)
      count) []

/-- Go `checkForMultipleInstanceOfSameNode`. -/
def checkForMultipleInstanceOfSameNode (s : NodeSystem) : List ValidationError :=
  ((multipleInstanceCount s).filter (fun p => decide (1 < p.2))).map
    (fun p => ValidationError.multipleInstancesOfSameNode p.2 p.1)

/-- The `count` map of Go `checkForMultipleLinksToNodeWithoutJoinMode`
(`count[link.To]++` over the links). -/
def linkToCount (s : NodeSystem) : List (Node × Nat) :=
  s.links.foldl (fun count link => countAdd count link.To) []

/-- Go `checkForMultipleLinksToNodeWithoutJoinMode`. -/
def checkForMultipleLinksToNodeWithoutJoinMode (s : NodeSystem) : List ValidationError :=
  ((linkToCount s).filter (fun p => decide (1 < p.2) && JoinModeOfNode s p.1 == JoinNone)).map
    (fun p => ValidationError.multipleLinksWithoutJoinMode p.2 p.1)

/-- The error list collected by Go `IsValid` (its local `errors` slice). -/
def allValidationErrors (s : NodeSystem) : List ValidationError :=
  checkForOrphanMultiBranchesNode s
    ++ checkForCyclicRedundancyInNodeLinks s
    ++ checkForUndeclaredNodeInNodeLink s
    ++ checkForMultipleInstanceOfSameNode s
    ++ checkForMultipleLinksToNodeWithoutJoinMode s

/-- Go `IsValid`. -/
def IsValid (s : NodeSystem) : Bool × List ValidationError :=
  let errors := allValidationErrors s
  if errors.isEmpty then (true, []) else (false, errors)

/-- Recognizer used to state the claims: is this validation error a
multiple-instances report about node `n`? -/
def isMultipleInstancesErrorFor (n : Node) : ValidationError → Bool
  | ValidationError.multipleInstancesOfSameNode _ m => m == n
  | _ => false

/-- Recognizer used to state the claims: is this validation error a
multiple-links-without-join-mode report about node `n`? -/
def isMultipleLinksErrorFor (n : Node) : ValidationError → Bool
  | ValidationError.multipleLinksWithoutJoinMode _ m => m == n
  | _ => false

/-- Append `v` to the bucket of branch label `b` of a nested follow/ancestors
map entry (Go `treeOnBranch[branch] = append(treeOnBranch[branch], v)`). -/
def bucketAdd : List (Option Bool × List Node) → Option Bool → Node → List (Option Bool × List Node)
  | [], b, v => [(b, [v])]
  | (b0, vs) :: rest, b, v =>
    if b0 == b then (b0, vs ++ [v]) :: rest else (b0, vs) :: bucketAdd rest b v

/-- Append `v` under outer key `k` and branch label `b` of a follow/ancestors
index (Go fetch-or-create of the inner map followed by the bucket append). -/
def treeAdd : NodeTree → Node → Option Bool → Node → NodeTree
  | [], k, b, v => [(k, [(b, [v])])]
  | (k0, buckets) :: rest, k, b, v =>
    if k0 == k then (k0, bucketAdd buckets b v) :: rest
    else (k0, buckets) :: treeAdd rest k b v

/-- Lookup of the outer key of a follow/ancestors index. -/
def treeFind : NodeTree → Node → Option (List (Option Bool × List Node))
  | [], _ => none
  | (k0, buckets) :: rest, n => if k0 == n then some buckets else treeFind rest n

/-- Lookup of a branch bucket of a follow/ancestors index entry. -/
def bucketFind : List (Option Bool × List Node) → Option Bool → Option (List Node)
  | [], _ => none
  | (b0, vs) :: rest, b => if b0 == b then some vs else bucketFind rest b

/-- Flattened lookup in a follow/ancestors index: the bucket of node `n` and
branch label `b`, the empty list when either level is absent. -/
def treeGet (tree : NodeTree) (n : Node) (b : Option Bool) : List Node :=
  match treeFind tree n with
  | some buckets => (bucketFind buckets b).getD []
  | none => []

/-- Go `Activate`.  The Go loop over `s.links` builds `followingNodesTree`,
`ancestorsNodesTree` and `toNodes` in a single pass with three independent
accumulators; they are transcribed as three passes computing the same values,
and the `isInitialNode` inner loop over `toNodes` as a filter. -/
def Activate (s : NodeSystem) : NodeSystem × Option String :=
  if s.activated then (s, none)
  else if !(IsValid s).1 then (s, some activateUnvalidatedMsg)
  else
    let followingNodesTree :=
      s.links.foldl (fun tree link => treeAdd tree link.From link.Branch link.To) []
    let ancestorsNodesTree :=
      s.links.foldl (fun tree link => treeAdd tree link.To link.Branch link.From) []
    let toNodes := s.links.map (fun link => link.To)
    let initialNodes := s.nodes.filter (fun node => !toNodes.contains node)
    ({ s with initialNodes := initialNodes,
              followingNodesTree := followingNodesTree,
              ancestorsNodesTree := ancestorsNodesTree,
              activated := true }, none)

/-- Go `InitialNodes`. -/
def InitialNodes (s : NodeSystem) : List Node :=
  s.initialNodes

/-- Go `IsActivated`. -/
def IsActivated (s : NodeSystem) : Bool :=
  s.activated

/-- Go `Follow`.  A Go `nil` slice result is the empty list. -/
def Follow (s : NodeSystem) (n : Node) (branch : Option Bool) : List Node × Option String :=
  if !s.activated then ([], some followNotActivatedMsg)
  else
    match treeFind s.followingNodesTree n with
    | some buckets =>
      match bucketFind buckets branch with
      | some nodes => (nodes, none)
      | none => ([], none)
    | none => ([], none)

/-- Go `Ancestors`. -/
def Ancestors (s : NodeSystem) (n : Node) (branch : Option Bool) : List Node × Option String :=
  if !s.activated then ([], some ancestorsNotActivatedMsg)
  else
    match treeFind s.ancestorsNodesTree n with
    | some buckets =>
      match bucketFind buckets branch with
      | some nodes => (nodes, none)
      | none => ([], none)
    | none => ([], none)

/-! Concrete systems used by the claim scenarios and witnesses. -/

def exNodeA : Node := { id := 0, DecideCapability := false }

def exNodeB : Node := { id := 1, DecideCapability := false }

def exNodeC : Node := { id := 2, DecideCapability := false }

def exNodeD : Node := { id := 3, DecideCapability := true }

/-- The three-node cycle scenario of C1: action nodes A, B, C with links
A to B, B to C, C to A. -/
def cycleSystem : NodeSystem :=
  let s := NewNodeSystem
  let s := (AddNode s exNodeA).1
  let s := (AddNode s exNodeB).1
  let s := (AddNode s exNodeC).1
  let s := (AddLink s (some exNodeA) (some exNodeB)).1
  let s := (AddLink s (some exNodeB) (some exNodeC)).1
  let s := (AddLink s (some exNodeC) (some exNodeA)).1
  s

/-- A small valid system: action nodes A and B with the single link A to B. -/
def linearSystem : NodeSystem :=
  let s := NewNodeSystem
  let s := (AddNode s exNodeA).1
  let s := (AddNode s exNodeB).1
  let s := (AddLink s (some exNodeA) (some exNodeB)).1
  s

/-- An activated system (the activation of `linearSystem`). -/
def activatedSystem : NodeSystem :=
  (Activate linearSystem).1

/-- The C2 counterexample: the same node value added three times. -/
def tripleNodeSystem : NodeSystem :=
  let s := NewNodeSystem
  let s := (AddNode s exNodeA).1
  let s := (AddNode s exNodeA).1
  let s := (AddNode s exNodeA).1
  s

/-- A node value added exactly twice (k = 2), for the C2 witness. -/
def doubleNodeSystem : NodeSystem :=
  let s := NewNodeSystem
  let s := (AddNode s exNodeA).1
  let s := (AddNode s exNodeA).1
  s

/-- Two links into the same node with the default join mode None, for the C6
witness. -/
def fanInSystem : NodeSystem :=
  let s := NewNodeSystem
  let s := (AddNode s exNodeA).1
  let s := (AddNode s exNodeB).1
  let s := (AddNode s exNodeC).1
  let s := (AddLink s (some exNodeA) (some exNodeB)).1
  let s := (AddLink s (some exNodeC) (some exNodeB)).1
  s

/-- The C10 counterexample: one declared node with a two-link cycle through an
undeclared node. -/
def undeclaredCycleSystem : NodeSystem :=
  let s := NewNodeSystem
  let s := (AddNode s exNodeA).1
  let s := (AddLink s (some exNodeA) (some exNodeB)).1
  let s := (AddLink s (some exNodeB) (some exNodeA)).1
  s

/-! ## Theorems -/

/-- C1: for the node system with distinct action nodes A, B, C and links A to B,
B to C, C to A (each node added once), the cycle check first collects the three
walks of the cycle discovered from A, from B and from C, `IsValid` returns false
with exactly one cycle error (the three walks are deduplicated to one report),
and `Activate` fails with the unvalidated-node-system error. -/
theorem threeNodeCycle_single_error_and_activation_fails :
    (cycleSystem.nodes.foldl (fun acc node => acc ++ findCycle cycleSystem node node []) []).length = 3
    ∧ IsValid cycleSystem =
        (false, [ValidationError.cyclicRedundancy
          [newNodeLink exNodeA exNodeB, newNodeLink exNodeB exNodeC, newNodeLink exNodeC exNodeA]])
    ∧ Activate cycleSystem = (cycleSystem, some activateUnvalidatedMsg)
    ∧ activateUnvalidatedMsg = "can\x27t activate a unvalidated node system" := by
  decide

/-- C4: on an activated node system every builder operation fails with a
message ending in the freeze-due-to-activation phrase and returns the system
unchanged (nodes, links and join-mode map included). -/
theorem builder_ops_frozen_after_activation (s : NodeSystem) (n : Node) (m : JoinMode)
    (fromNode toNode : Option Node) (b : Bool) (h : s.activated = true) :
    AddNode s n = (s, false, some freezeAddNodeMsg)
    ∧ ConfigureJoinModeOnNode s n m = (s, false, some freezeJoinModeMsg)
    ∧ AddLink s fromNode toNode = (s, false, some freezeAddLinkMsg)
    ∧ AddLinkOnBranch s fromNode toNode b = (s, false, some freezeAddLinkMsg)
    ∧ freezeAddNodeMsg = "can\x27t add node, node system is " ++ "freeze due to activation"
    ∧ freezeJoinModeMsg = "can\x27t add node join mode, node system is " ++ "freeze due to activation"
    ∧ freezeAddLinkMsg = "can\x27t add branch link, node system is " ++ "freeze due to activation" := by
  refine ⟨?_, ?_, ?_, ?_, rfl, rfl, rfl⟩ <;>
    simp [AddNode, ConfigureJoinModeOnNode, AddLink, AddLinkOnBranch, addLink, h]

theorem builder_ops_frozen_after_activation_witness :
    AddNode activatedSystem exNodeC = (activatedSystem, false, some freezeAddNodeMsg)
    ∧ ConfigureJoinModeOnNode activatedSystem exNodeC JoinAnd
        = (activatedSystem, false, some freezeJoinModeMsg)
    ∧ AddLink activatedSystem (some exNodeB) (some exNodeC)
        = (activatedSystem, false, some freezeAddLinkMsg)
    ∧ AddLinkOnBranch activatedSystem (some exNodeB) (some exNodeC) true
        = (activatedSystem, false, some freezeAddLinkMsg) := by
  have h := builder_ops_frozen_after_activation activatedSystem exNodeC JoinAnd
    (some exNodeB) (some exNodeC) true (by decide)
  exact ⟨h.1, h.2.1, h.2.2.1, h.2.2.2.1⟩

/-- C7: on a non-activated node system, `addLink` rejects a missing from node,
a missing to node, a missing branch out of a decision node, a branch out of a
non-decision node, and a self link, each time returning false with the
corresponding error and leaving the system (hence its links list)
unchanged. -/
theorem addLink_rejects_malformed_links (s : NodeSystem) (f : Node) (toN : Option Node)
    (brN : Option Bool) (b : Bool) (h : s.activated = false) :
    addLink s none toN brN = (s, false, some missingFromMsg)
    ∧ (f.DecideCapability = true → addLink s (some f) toN none = (s, false, some missingBranchMsg))
    ∧ (f.DecideCapability = false →
        addLink s (some f) toN (some b) = (s, false, some notNeededBranchMsg))
    ∧ (f.DecideCapability = false → addLink s (some f) none none = (s, false, some missingToMsg))
    ∧ (f.DecideCapability = true → addLink s (some f) none (some b) = (s, false, some missingToMsg))
    ∧ (f.DecideCapability = false → addLink s (some f) (some f) none = (s, false, some selfLinkMsg))
    ∧ (f.DecideCapability = true →
        addLink s (some f) (some f) (some b) = (s, false, some selfLinkMsg)) := by
  refine ⟨by simp [addLink, h], ?_, ?_, ?_, ?_, ?_, ?_⟩ <;>
    intro h1 <;> simp [addLink, h, h1]

theorem addLink_rejects_malformed_links_witness :
    addLink linearSystem none (some exNodeB) none = (linearSystem, false, some missingFromMsg)
    ∧ addLink linearSystem (some exNodeD) (some exNodeB) none
        = (linearSystem, false, some missingBranchMsg)
    ∧ addLink linearSystem (some exNodeA) (some exNodeB) (some true)
        = (linearSystem, false, some notNeededBranchMsg)
    ∧ addLink linearSystem (some exNodeA) none none = (linearSystem, false, some missingToMsg)
    ∧ addLink linearSystem (some exNodeA) (some exNodeA) none
        = (linearSystem, false, some selfLinkMsg) := by
  have h1 := addLink_rejects_malformed_links linearSystem exNodeD (some exNodeB)
    none true (by decide)
  have h2 := addLink_rejects_malformed_links linearSystem exNodeA (some exNodeB)
    none true (by decide)
  exact ⟨h1.1, h1.2.1 (by decide), h2.2.2.1 (by decide), h2.2.2.2.1 (by decide),
    h2.2.2.2.2.2.1 (by decide)⟩

/-- C8: `Activate` is idempotent: on a valid node system a first call succeeds,
and a second call on the resulting system succeeds and returns that system
completely unchanged. -/
theorem activate_idempotent (s : NodeSystem) (h : (IsValid s).1 = true) :
    (Activate s).2 = none ∧ Activate (Activate s).1 = ((Activate s).1, none) := by
  by_cases ha : s.activated
  · simp [Activate, ha]
  · simp [Activate, ha, h]

theorem activate_idempotent_witness :
    (Activate linearSystem).2 = none
    ∧ Activate (Activate linearSystem).1 = ((Activate linearSystem).1, none) :=
  activate_idempotent linearSystem (by decide)

/-- C9: on a node system that has not been activated, `Follow` and `Ancestors`
return a nil result together with their respective not-activated errors. -/
theorem unactivated_follow_ancestors_fail (s : NodeSystem) (n : Node) (b : Option Bool)
    (h : s.activated = false) :
    Follow s n b = ([], some followNotActivatedMsg)
    ∧ Ancestors s n b = ([], some ancestorsNotActivatedMsg)
    ∧ followNotActivatedMsg = "can\x27t follow a node if system is not activated"
    ∧ ancestorsNotActivatedMsg = "can\x27t get ancestors of a node if system is not activated" := by
  refine ⟨?_, ?_, rfl, rfl⟩ <;> simp [Follow, Ancestors, h]

theorem unactivated_follow_ancestors_fail_witness :
    Follow linearSystem exNodeA none = ([], some followNotActivatedMsg)
    ∧ Ancestors linearSystem exNodeB none = ([], some ancestorsNotActivatedMsg) :=
  ⟨(unactivated_follow_ancestors_fail linearSystem exNodeA none (by decide)).1,
   (unactivated_follow_ancestors_fail linearSystem exNodeB none (by decide)).2.1⟩

/-- C2 counterexample: a node value added three times (k = 3) yields exactly one
multiple-instances error, but the count it reports is 6 = k * (k - 1), not
k = 3. -/
theorem multipleInstances_reported_count_counterexample :
    tripleNodeSystem.nodes.count exNodeA = 3
    ∧ (IsValid tripleNodeSystem).2 = [ValidationError.multipleInstancesOfSameNode 6 exNodeA]
    ∧ ValidationError.multipleInstancesOfSameNode 3 exNodeA ∉ (IsValid tripleNodeSystem).2 := by
  decide

/-- C10 counterexample: in a system whose links run through a node that is not
declared in `nodes`, the cycle search performs (and reports) a walk strictly
longer than the number of nodes of the system: one declared node, but a walk of
two links. -/
theorem findCycle_walk_exceeds_node_count :
    exNodeA ∈ undeclaredCycleSystem.nodes
    ∧ undeclaredCycleSystem.nodes.length = 1
    ∧ ((findCycle undeclaredCycleSystem exNodeA exNodeA []).any
        (fun c => undeclaredCycleSystem.nodes.length < c.length)) = true
    ∧ checkForCyclicRedundancyInNodeLinks undeclaredCycleSystem
        = [ValidationError.cyclicRedundancy
            [newNodeLink exNodeA exNodeB, newNodeLink exNodeB exNodeA]] := by
  decide

/-- C5: after a successful activation, the initial nodes are exactly the
declared nodes that appear as no link target, in the insertion order of the
nodes list, and are therefore disjoint from the set of all link targets. -/
theorem initialNodes_are_non_targets (s : NodeSystem)
    (ha : s.activated = false) (hv : (IsValid s).1 = true) :
    (Activate s).2 = none
    ∧ InitialNodes (Activate s).1
        = s.nodes.filter (fun node => !((s.links.map (fun link => link.To)).contains node))
    ∧ ∀ n ∈ InitialNodes (Activate s).1, ∀ link ∈ s.links, n ≠ link.To := by
  have hAct : (Activate s).1.initialNodes
      = s.nodes.filter (fun node => !((s.links.map (fun link => link.To)).contains node)) := by
    simp [Activate, ha, hv]
  refine ⟨by simp [Activate, ha, hv], hAct, ?_⟩
  intro n hn link hl
  rw [InitialNodes, hAct] at hn
  have hmem := (List.mem_filter.mp hn).2
  intro hEq
  have : n ∈ s.links.map (fun link => link.To) :=
    List.mem_map.mpr ⟨link, hl, hEq.symm⟩
  have helem : (s.links.map (fun link => link.To)).contains n = true :=
    List.elem_iff.mpr this
  rw [helem] at hmem
  simp at hmem

theorem initialNodes_are_non_targets_witness :
    (Activate linearSystem).2 = none
    ∧ InitialNodes (Activate linearSystem).1
        = linearSystem.nodes.filter
            (fun node => !((linearSystem.links.map (fun link => link.To)).contains node))
    ∧ ∀ n ∈ InitialNodes (Activate linearSystem).1,
        ∀ link ∈ linearSystem.links, n ≠ link.To :=
  initialNodes_are_non_targets linearSystem (by decide) (by decide)

theorem bucketGet_bucketAdd (bs : List (Option Bool × List Node)) (b bq : Option Bool) (v : Node) :
    (bucketFind (bucketAdd bs b v) bq).getD []
      = (bucketFind bs bq).getD [] ++ (if b = bq then [v] else []) := by
  induction bs with
  | nil => by_cases h : b = bq <;> simp [bucketAdd, bucketFind, h]
  | cons head tail ih =>
    obtain ⟨b0, vs⟩ := head
    by_cases h1 : b0 = b
    · subst h1
      by_cases h2 : b0 = bq <;> simp [bucketAdd, bucketFind, h2]
    · by_cases h2 : b0 = bq
      · subst h2
        have h3 : ¬(b = b0) := fun h => h1 h.symm
        simp [bucketAdd, bucketFind, h1, h3]
      · simp [bucketAdd, bucketFind, h1, h2, ih]

theorem treeGet_treeAdd (t : NodeTree) (k n : Node) (b bq : Option Bool) (v : Node) :
    treeGet (treeAdd t k b v) n bq
      = treeGet t n bq ++ (if k = n ∧ b = bq then [v] else []) := by
  induction t with
  | nil =>
    by_cases h1 : k = n
    · subst h1
      by_cases h2 : b = bq <;> simp [treeAdd, treeGet, treeFind, bucketFind, h2]
    · simp [treeAdd, treeGet, treeFind, h1]
  | cons head tail ih =>
    obtain ⟨k0, buckets⟩ := head
    by_cases h1 : k0 = k
    · subst h1
      by_cases h2 : k0 = n
      · subst h2
        simp [treeAdd, treeGet, treeFind, bucketGet_bucketAdd]
      · simp [treeAdd, treeGet, treeFind, h2, fun h : k0 = n ∧ b = bq => h2 h.1]
    · by_cases h2 : k0 = n
      · subst h2
        have h3 : ¬(k = k0) := fun h => h1 h.symm
        have h4 : ¬(k = k0 ∧ b = bq) := fun h => h3 h.1
        simp [treeAdd, treeGet, treeFind, h1, h3, h4]
      · simp only [treeGet] at ih
        simp [treeAdd, treeGet, treeFind, h1, h2, ih]

theorem treeGet_foldl_treeAdd (key val : nodeLink → Node) (n : Node) (bq : Option Bool) :
    ∀ (links : List nodeLink) (t : NodeTree),
    treeGet (links.foldl (fun tree link => treeAdd tree (key link) link.Branch (val link)) t) n bq
      = treeGet t n bq
        ++ (links.filter (fun link => key link == n && link.Branch == bq)).map val := by
  intro links
  induction links with
  | nil => intro t; simp
  | cons link tail ih =>
    intro t
    rw [List.foldl_cons, ih, treeGet_treeAdd]
    by_cases h1 : key link = n
    · by_cases h2 : link.Branch = bq
      · simp [h1, h2, List.filter_cons]
      · simp [h1, h2, List.filter_cons]
    · simp [h1, List.filter_cons]

theorem follow_of_activated (s : NodeSystem) (h : s.activated = true) (n : Node)
    (b : Option Bool) :
    Follow s n b = (treeGet s.followingNodesTree n b, none) := by
  unfold Follow treeGet
  rw [if_neg (by simp [h])]
  cases hf : treeFind s.followingNodesTree n with
  | none => simp
  | some buckets => cases hb : bucketFind buckets b <;> simp [hb]

/-- C3: on a freshly activated node system, `Follow n b` succeeds and returns
exactly the `To` endpoints of the links whose `From` is `n` and whose branch
label is `b`, in the order the links were added; in particular it returns the
empty list and no error when `n` has no outbound link on `b`. -/
theorem follow_returns_branch_successors (s : NodeSystem) (n : Node) (b : Option Bool)
    (ha : s.activated = false) (hv : (IsValid s).1 = true) :
    Follow (Activate s).1 n b
      = ((s.links.filter (fun link => link.From == n && link.Branch == b)).map
          (fun link => link.To), none) := by
  have h1 : (Activate s).1.activated = true := by simp [Activate, ha, hv]
  have h2 : (Activate s).1.followingNodesTree
      = s.links.foldl (fun tree link => treeAdd tree link.From link.Branch link.To) [] := by
    simp [Activate, ha, hv]
  rw [follow_of_activated _ h1, h2, treeGet_foldl_treeAdd]
  simp [treeGet, treeFind]

theorem follow_returns_branch_successors_witness :
    Follow (Activate linearSystem).1 exNodeA none = ([exNodeB], none)
    ∧ Follow (Activate linearSystem).1 exNodeB none = ([], none) := by
  constructor
  · rw [follow_returns_branch_successors linearSystem exNodeA none (by decide) (by decide)]
    decide
  · rw [follow_returns_branch_successors linearSystem exNodeB none (by decide) (by decide)]
    decide

theorem countOf_countAdd (l : List (Node × Nat)) (m v : Node) :
    countOf (countAdd l m) v = countOf l v + if m == v then 1 else 0 := by
  induction l with
  | nil => by_cases h : m = v <;> simp [countAdd, countOf, h]
  | cons head tail ih =>
    obtain ⟨k, c⟩ := head
    by_cases h1 : k = m
    · subst h1
      by_cases h2 : k = v <;> simp [countAdd, countOf, h2]
    · by_cases h2 : k = v
      · have h3 : ¬(m = v) := fun hh => h1 (h2.trans hh.symm)
        have h4 : ¬(v = m) := fun hh => h3 hh.symm
        simp [countAdd, countOf, h1, h2, h3, h4]
      · simp [countAdd, countOf, h1, h2, ih]

theorem countOf_linkToCount (s : NodeSystem) (v : Node) :
    countOf (linkToCount s) v = s.links.countP (fun link => link.To == v) := by
  have h : ∀ (ls : List nodeLink) (c0 : List (Node × Nat)),
      countOf (ls.foldl (fun count link => countAdd count link.To) c0) v
        = countOf c0 v + ls.countP (fun link => link.To == v) := by
    intro ls
    induction ls with
    | nil => intro c0; simp
    | cons l tail ih =>
      intro c0
      rw [List.foldl_cons, ih, countOf_countAdd, List.countP_cons]
      by_cases hh : l.To = v <;> simp [hh] <;> omega
  have h2 := h s.links []
  simpa [linkToCount, countOf] using h2

theorem countOf_mic_inner (s : NodeSystem) (v : Node) (i : Nat) :
    ∀ (js : List Nat) (c0 : List (Node × Nat)),
    countOf (js.foldl (fun count j =>
        if i != j && s.nodes[i]! == s.nodes[j]! then countAdd count s.nodes[i]! else count) c0) v
      = countOf c0 v
        + js.countP (fun j => (i != j && s.nodes[i]! == s.nodes[j]!) && s.nodes[i]! == v) := by
  intro js
  induction js with
  | nil => intro c0; simp
  | cons j tail ih =>
    intro c0
    rw [List.foldl_cons, ih, List.countP_cons]
    cases hg : i != j && s.nodes[i]! == s.nodes[j]!
    · simp [hg]
    · rw [if_pos rfl]
      rw [countOf_countAdd]
      by_cases h2 : s.nodes[i]! = v <;> simp [h2] <;> omega

theorem countP_range_getElem (l : List Node) (v : Node) :
    (List.range l.length).countP (fun j => l[j]! == v) = l.count v := by
  induction l with
  | nil => simp
  | cons x tail ih =>
    rw [List.length_cons, List.range_succ_eq_map, List.countP_cons, List.countP_map]
    have hcomp : ((fun j => (x :: tail)[j]! == v) ∘ Nat.succ) = fun j => tail[j]! == v := by
      funext j
      simp [List.getElem!_cons_succ]
    rw [hcomp, ih, List.count_cons]
    simp [List.getElem!_cons_zero]

theorem countP_split {α : Type} (l : List α) (c q : α → Bool) :
    l.countP q = l.countP (fun x => c x && q x) + l.countP (fun x => !c x && q x) := by
  induction l with
  | nil => simp
  | cons a tail ih =>
    rw [List.countP_cons, List.countP_cons, List.countP_cons, ih]
    cases hc : c a <;> cases hq : q a <;> simp [hc, hq] <;> omega

theorem countP_range_eqIdx (n i : Nat) (q : Nat → Bool) (hi : i < n) :
    (List.range n).countP (fun j => (i == j) && q j) = if q i then 1 else 0 := by
  induction n with
  | zero => exact absurd hi (Nat.not_lt_zero i)
  | succ n ih =>
    rw [List.range_succ, List.countP_append, List.countP_singleton]
    by_cases h : i < n
    · rw [ih h]
      have hne : (i == n) = false := by
        simp
        omega
      simp [hne]
    · have hin : i = n := by omega
      subst hin
      have hzero : (List.range i).countP (fun j => (i == j) && q j) = 0 := by
        apply List.countP_eq_zero.mpr
        intro j hj
        have hlt := List.mem_range.mp hj
        simp
        intro hh
        omega
      simp [hzero]

theorem countP_range_ne (n i : Nat) (q : Nat → Bool) (hi : i < n) (hq : q i = true) :
    (List.range n).countP (fun j => (i != j) && q j) + 1 = (List.range n).countP q := by
  have hsplit := countP_split (List.range n) (fun j => i == j) q
  have he := countP_range_eqIdx n i q hi
  rw [hq] at he
  have hb : (fun j => !(i == j) && q j) = (fun j => (i != j) && q j) := by
    funext j
    simp [bne]
  rw [hb] at hsplit
  rw [hsplit, he]
  simp
  omega

theorem sum_map_ite_const (l : List Nat) (m : Nat) (p : Nat → Bool) :
    (l.map (fun i => if p i then m else 0)).sum = m * l.countP p := by
  induction l with
  | nil => simp
  | cons a tail ih =>
    rw [List.map_cons, List.sum_cons, ih, List.countP_cons]
    cases hp : p a <;> simp [hp, Nat.mul_add] <;> omega

theorem countOf_multipleInstanceCount (s : NodeSystem) (v : Node) :
    countOf (multipleInstanceCount s) v
      = s.nodes.count v * (s.nodes.count v - 1) := by
  have houter : ∀ (is : List Nat) (c0 : List (Node × Nat)),
      countOf (is.foldl (fun count i =>
          (List.range s.nodes.length).foldl (fun count j =>
            if i != j && s.nodes[i]! == s.nodes[j]! then countAdd count s.nodes[i]! else count)
            count) c0) v
        = countOf c0 v
          + (is.map (fun i => (List.range s.nodes.length).countP
              (fun j => (i != j && s.nodes[i]! == s.nodes[j]!) && s.nodes[i]! == v))).sum := by
    intro is
    induction is with
    | nil => intro c0; simp
    | cons i tail ih =>
      intro c0
      rw [List.foldl_cons, ih, countOf_mic_inner]
      rw [List.map_cons, List.sum_cons]
      omega
  have hK := countP_range_getElem s.nodes v
  have hmap : ∀ i ∈ List.range s.nodes.length,
      (List.range s.nodes.length).countP
          (fun j => (i != j && s.nodes[i]! == s.nodes[j]!) && s.nodes[i]! == v)
        = if s.nodes[i]! == v then s.nodes.count v - 1 else 0 := by
    intro i hi
    by_cases hv : s.nodes[i]! = v
    · have hcong : (List.range s.nodes.length).countP
          (fun j => (i != j && s.nodes[i]! == s.nodes[j]!) && s.nodes[i]! == v)
          = (List.range s.nodes.length).countP (fun j => (i != j) && s.nodes[j]! == v) := by
        apply List.countP_congr
        intro j hj
        constructor
        · intro hcond
          rw [Bool.and_eq_true, Bool.and_eq_true] at hcond
          rw [Bool.and_eq_true]
          refine ⟨hcond.1.1, ?_⟩
          have hji := beq_iff_eq.mp hcond.1.2
          rw [beq_iff_eq, ← hji]
          exact hv
        · intro hcond
          rw [Bool.and_eq_true] at hcond
          rw [Bool.and_eq_true, Bool.and_eq_true]
          have hjv := beq_iff_eq.mp hcond.2
          exact ⟨⟨hcond.1, beq_iff_eq.mpr (hv.trans hjv.symm)⟩, beq_iff_eq.mpr hv⟩
      have hqi : (fun j => s.nodes[j]! == v) i = true := by simp [hv]
      have h2 : (List.range s.nodes.length).countP (fun j => (i != j) && s.nodes[j]! == v) + 1
          = (List.range s.nodes.length).countP (fun j => s.nodes[j]! == v) :=
        countP_range_ne s.nodes.length i (fun j => s.nodes[j]! == v) (List.mem_range.mp hi) hqi
      rw [hK] at h2
      rw [hcong, if_pos (by simp [hv])]
      omega
    · rw [if_neg (by simp [hv])]
      apply List.countP_eq_zero.mpr
      intro j hj
      simp [hv]
  rw [multipleInstanceCount, houter, List.map_congr_left hmap, sum_map_ite_const, hK]
  simp [countOf, Nat.mul_comm]

theorem mem_keys_countAdd (l : List (Node × Nat)) (n x : Node)
    (h : x ∈ (countAdd l n).map Prod.fst) : x ∈ l.map Prod.fst ∨ x = n := by
  induction l with
  | nil =>
    simp [countAdd] at h
    right
    exact h
  | cons head tail ih =>
    obtain ⟨k, c⟩ := head
    by_cases hk : k = n
    · subst hk
      have heq : countAdd ((k, c) :: tail) k = (k, c + 1) :: tail := by simp [countAdd]
      rw [heq, List.map_cons, List.mem_cons] at h
      rw [List.map_cons, List.mem_cons]
      exact Or.inl h
    · have heq : countAdd ((k, c) :: tail) n = (k, c) :: countAdd tail n := by
        simp [countAdd, hk]
      rw [heq, List.map_cons, List.mem_cons] at h
      rcases h with h | h
      · exact Or.inl (by rw [List.map_cons, List.mem_cons]; exact Or.inl h)
      · rcases ih h with h2 | h2
        · exact Or.inl (by rw [List.map_cons, List.mem_cons]; exact Or.inr h2)
        · exact Or.inr h2

theorem nodup_keys_countAdd (l : List (Node × Nat)) (n : Node)
    (h : (l.map Prod.fst).Nodup) : ((countAdd l n).map Prod.fst).Nodup := by
  induction l with
  | nil => simp [countAdd]
  | cons head tail ih =>
    obtain ⟨k, c⟩ := head
    rw [List.map_cons, List.nodup_cons] at h
    by_cases hk : k = n
    · subst hk
      have heq : countAdd ((k, c) :: tail) k = (k, c + 1) :: tail := by simp [countAdd]
      rw [heq, List.map_cons, List.nodup_cons]
      exact h
    · have heq : countAdd ((k, c) :: tail) n = (k, c) :: countAdd tail n := by
        simp [countAdd, hk]
      rw [heq, List.map_cons, List.nodup_cons]
      constructor
      · intro hmem
        rcases mem_keys_countAdd tail n k hmem with h2 | h2
        · exact h.1 h2
        · exact hk h2
      · exact ih h.2

theorem nodup_keys_linkToCount (s : NodeSystem) : ((linkToCount s).map Prod.fst).Nodup := by
  have h : ∀ (ls : List nodeLink) (c0 : List (Node × Nat)), (c0.map Prod.fst).Nodup →
      ((ls.foldl (fun count link => countAdd count link.To) c0).map Prod.fst).Nodup := by
    intro ls
    induction ls with
    | nil => intro c0 h; simpa using h
    | cons l tail ih =>
      intro c0 h
      rw [List.foldl_cons]
      exact ih _ (nodup_keys_countAdd _ _ h)
  exact h s.links [] (by simp)

theorem nodup_keys_multipleInstanceCount (s : NodeSystem) :
    ((multipleInstanceCount s).map Prod.fst).Nodup := by
  have hinner : ∀ (js : List Nat) (i : Nat) (c0 : List (Node × Nat)), (c0.map Prod.fst).Nodup →
      ((js.foldl (fun count j =>
          if i != j && s.nodes[i]! == s.nodes[j]! then countAdd count s.nodes[i]! else count)
          c0).map Prod.fst).Nodup := by
    intro js
    induction js with
    | nil => intro i c0 h; simpa using h
    | cons j tail ih =>
      intro i c0 h
      rw [List.foldl_cons]
      apply ih
      cases hg : i != j && s.nodes[i]! == s.nodes[j]!
      · simpa [hg] using h
      · simpa [hg] using nodup_keys_countAdd c0 _ h
  have houter : ∀ (is : List Nat) (c0 : List (Node × Nat)), (c0.map Prod.fst).Nodup →
      ((is.foldl (fun count i =>
          (List.range s.nodes.length).foldl (fun count j =>
            if i != j && s.nodes[i]! == s.nodes[j]! then countAdd count s.nodes[i]! else count)
            count) c0).map Prod.fst).Nodup := by
    intro is
    induction is with
    | nil => intro c0 h; simpa using h
    | cons i tail ih =>
      intro c0 h
      rw [List.foldl_cons]
      exact ih _ (hinner _ i c0 h)
  exact houter _ [] (by simp)

theorem countOf_eq_of_mem (l : List (Node × Nat)) (h : (l.map Prod.fst).Nodup)
    (m : Node) (c : Nat) (hm : (m, c) ∈ l) : countOf l m = c := by
  induction l with
  | nil => simp at hm
  | cons head tail ih =>
    rcases List.mem_cons.mp hm with heq | hmem
    · subst heq
      simp [countOf]
    · rw [List.map_cons, List.nodup_cons] at h
      obtain ⟨k, b⟩ := head
      have hk : ¬(k = m) := fun hkm =>
        h.1 (by rw [hkm]; exact List.mem_map.mpr ⟨(m, c), hmem, rfl⟩)
      have hc : countOf ((k, b) :: tail) m = countOf tail m := by simp [countOf, hk]
      rw [hc]
      exact ih h.2 hmem

theorem countOf_pos_mem (l : List (Node × Nat)) (v : Node) (h : 0 < countOf l v) :
    (v, countOf l v) ∈ l := by
  induction l with
  | nil => simp [countOf] at h
  | cons head tail ih =>
    obtain ⟨k, c⟩ := head
    by_cases hk : k = v
    · subst hk
      have hc : countOf ((k, c) :: tail) k = c := by simp [countOf]
      rw [hc]
      exact List.mem_cons_self _ _
    · have hc : countOf ((k, c) :: tail) v = countOf tail v := by simp [countOf, hk]
      rw [hc] at h ⊢
      exact List.mem_cons_of_mem _ (ih h)

theorem filter_key_eq (l : List (Node × Nat)) (h : (l.map Prod.fst).Nodup)
    (v : Node) (c : Nat) (hm : (v, c) ∈ l) :
    l.filter (fun p => p.1 == v) = [(v, c)] := by
  induction l with
  | nil => simp at hm
  | cons head tail ih =>
    rw [List.map_cons, List.nodup_cons] at h
    rcases List.mem_cons.mp hm with heq | hmem
    · subst heq
      rw [List.filter_cons]
      have hnil : tail.filter (fun p => p.1 == v) = [] := by
        apply List.filter_eq_nil_iff.mpr
        intro p hp hpv
        exact h.1 (List.mem_map.mpr ⟨p, hp, beq_iff_eq.mp hpv⟩)
      simp [hnil]
    · obtain ⟨k, b⟩ := head
      have hk : ¬(k = v) := fun hkv =>
        h.1 (by rw [hkv]; exact List.mem_map.mpr ⟨(v, c), hmem, rfl⟩)
      rw [List.filter_cons]
      have hpred : (((k, b) : Node × Nat).1 == v) = false := by simp [hk]
      simp only [hpred, Bool.false_eq_true, if_false]
      exact ih h.2 hmem

theorem any_map_general {α β : Type} (f : α → β) (l : List α) (p : β → Bool) :
    (l.map f).any p = l.any (fun a => p (f a)) := by
  induction l with
  | nil => rfl
  | cons a tail ih => simp [ih]

theorem shape_orphan (s : NodeSystem) (e : ValidationError)
    (h : e ∈ checkForOrphanMultiBranchesNode s) :
    ∃ x, e = ValidationError.orphanMultiBranchesNode x := by
  unfold checkForOrphanMultiBranchesNode at h
  rcases List.mem_map.mp h with ⟨x, _, rfl⟩
  exact ⟨x, rfl⟩

theorem shape_cyclic (s : NodeSystem) (e : ValidationError)
    (h : e ∈ checkForCyclicRedundancyInNodeLinks s) :
    ∃ c, e = ValidationError.cyclicRedundancy c := by
  unfold checkForCyclicRedundancyInNodeLinks at h
  rcases List.mem_map.mp h with ⟨c, _, rfl⟩
  exact ⟨c, rfl⟩

theorem shape_undeclared (s : NodeSystem) (e : ValidationError)
    (h : e ∈ checkForUndeclaredNodeInNodeLink s) :
    (∃ a b, e = ValidationError.undeclaredFromNode a b)
      ∨ (∃ a b, e = ValidationError.undeclaredToNode a b) := by
  unfold checkForUndeclaredNodeInNodeLink at h
  rcases List.mem_flatMap.mp h with ⟨link, _, hmem⟩
  rcases List.mem_append.mp hmem with hmem2 | hmem2
  · left
    by_cases hc : !haveNode s link.From
    · rw [if_pos hc] at hmem2
      rcases List.mem_singleton.mp hmem2 with rfl
      exact ⟨link.From, link, rfl⟩
    · rw [if_neg hc] at hmem2
      simp at hmem2
  · right
    by_cases hc : !haveNode s link.To
    · rw [if_pos hc] at hmem2
      rcases List.mem_singleton.mp hmem2 with rfl
      exact ⟨link.To, link, rfl⟩
    · rw [if_neg hc] at hmem2
      simp at hmem2

theorem shape_multiInstances (s : NodeSystem) (e : ValidationError)
    (h : e ∈ checkForMultipleInstanceOfSameNode s) :
    ∃ c m, e = ValidationError.multipleInstancesOfSameNode c m := by
  unfold checkForMultipleInstanceOfSameNode at h
  rcases List.mem_map.mp h with ⟨p, _, rfl⟩
  exact ⟨p.2, p.1, rfl⟩

theorem shape_multiLinks (s : NodeSystem) (e : ValidationError)
    (h : e ∈ checkForMultipleLinksToNodeWithoutJoinMode s) :
    ∃ c m, e = ValidationError.multipleLinksWithoutJoinMode c m := by
  unfold checkForMultipleLinksToNodeWithoutJoinMode at h
  rcases List.mem_map.mp h with ⟨p, _, rfl⟩
  exact ⟨p.2, p.1, rfl⟩

theorem filter_allValidationErrors_multiInstances (s : NodeSystem) (v : Node) :
    (allValidationErrors s).filter (isMultipleInstancesErrorFor v)
      = (checkForMultipleInstanceOfSameNode s).filter (isMultipleInstancesErrorFor v) := by
  unfold allValidationErrors
  rw [List.filter_append, List.filter_append, List.filter_append, List.filter_append]
  have h1 : (checkForOrphanMultiBranchesNode s).filter (isMultipleInstancesErrorFor v) = [] := by
    apply List.filter_eq_nil_iff.mpr
    intro e he
    rcases shape_orphan s e he with ⟨x, rfl⟩
    simp [isMultipleInstancesErrorFor]
  have h2 : (checkForCyclicRedundancyInNodeLinks s).filter (isMultipleInstancesErrorFor v) = [] := by
    apply List.filter_eq_nil_iff.mpr
    intro e he
    rcases shape_cyclic s e he with ⟨c, rfl⟩
    simp [isMultipleInstancesErrorFor]
  have h3 : (checkForUndeclaredNodeInNodeLink s).filter (isMultipleInstancesErrorFor v) = [] := by
    apply List.filter_eq_nil_iff.mpr
    intro e he
    rcases shape_undeclared s e he with ⟨a, b, rfl⟩ | ⟨a, b, rfl⟩ <;>
      simp [isMultipleInstancesErrorFor]
  have h5 : (checkForMultipleLinksToNodeWithoutJoinMode s).filter
      (isMultipleInstancesErrorFor v) = [] := by
    apply List.filter_eq_nil_iff.mpr
    intro e he
    rcases shape_multiLinks s e he with ⟨c, m, rfl⟩
    simp [isMultipleInstancesErrorFor]
  rw [h1, h2, h3, h5]
  simp

theorem any_allValidationErrors_multiLinks (s : NodeSystem) (n : Node) :
    (allValidationErrors s).any (isMultipleLinksErrorFor n)
      = (checkForMultipleLinksToNodeWithoutJoinMode s).any (isMultipleLinksErrorFor n) := by
  unfold allValidationErrors
  rw [List.any_append, List.any_append, List.any_append, List.any_append]
  have h1 : (checkForOrphanMultiBranchesNode s).any (isMultipleLinksErrorFor n) = false := by
    apply List.any_eq_false.mpr
    intro e he
    rcases shape_orphan s e he with ⟨x, rfl⟩
    simp [isMultipleLinksErrorFor]
  have h2 : (checkForCyclicRedundancyInNodeLinks s).any (isMultipleLinksErrorFor n) = false := by
    apply List.any_eq_false.mpr
    intro e he
    rcases shape_cyclic s e he with ⟨c, rfl⟩
    simp [isMultipleLinksErrorFor]
  have h3 : (checkForUndeclaredNodeInNodeLink s).any (isMultipleLinksErrorFor n) = false := by
    apply List.any_eq_false.mpr
    intro e he
    rcases shape_undeclared s e he with ⟨a, b, rfl⟩ | ⟨a, b, rfl⟩ <;>
      simp [isMultipleLinksErrorFor]
  have h4 : (checkForMultipleInstanceOfSameNode s).any (isMultipleLinksErrorFor n) = false := by
    apply List.any_eq_false.mpr
    intro e he
    rcases shape_multiInstances s e he with ⟨c, m, rfl⟩
    simp [isMultipleLinksErrorFor]
  rw [h1, h2, h3, h4]
  simp

/-- C2 (amended): for every node system and node value v appearing k > 1 times
in the nodes list, `IsValid` returns exactly one multiple-instances error for
v, and the count it reports is k * (k - 1) (the number of ordered pairs of
distinct positions holding v), which equals k only for k = 2. -/
theorem multipleInstances_exactly_one_error (s : NodeSystem) (v : Node)
    (h : 2 ≤ s.nodes.count v) :
    (IsValid s).2.filter (isMultipleInstancesErrorFor v)
      = [ValidationError.multipleInstancesOfSameNode
          (s.nodes.count v * (s.nodes.count v - 1)) v] := by
  have hc : countOf (multipleInstanceCount s) v
      = s.nodes.count v * (s.nodes.count v - 1) := countOf_multipleInstanceCount s v
  have hpos : 2 ≤ s.nodes.count v * (s.nodes.count v - 1) := by
    have h1 : 1 ≤ s.nodes.count v - 1 := by omega
    calc 2 = 2 * 1 := by omega
    _ ≤ s.nodes.count v * (s.nodes.count v - 1) := Nat.mul_le_mul h h1
  have hnodup := nodup_keys_multipleInstanceCount s
  have hmem : (v, s.nodes.count v * (s.nodes.count v - 1)) ∈ multipleInstanceCount s := by
    have hm := countOf_pos_mem (multipleInstanceCount s) v (by omega)
    rwa [hc] at hm
  have hchunk : (checkForMultipleInstanceOfSameNode s).filter (isMultipleInstancesErrorFor v)
      = [ValidationError.multipleInstancesOfSameNode
          (s.nodes.count v * (s.nodes.count v - 1)) v] := by
    unfold checkForMultipleInstanceOfSameNode
    rw [List.filter_map]
    have hcomp : ((isMultipleInstancesErrorFor v) ∘
        (fun p : Node × Nat => ValidationError.multipleInstancesOfSameNode p.2 p.1))
        = fun p : Node × Nat => p.1 == v := by
      funext p
      rfl
    rw [hcomp, List.filter_filter]
    have hcomm : ∀ p ∈ multipleInstanceCount s,
        ((fun p : Node × Nat => p.1 == v) p && (fun p : Node × Nat => decide (1 < p.2)) p)
          = ((fun p : Node × Nat => decide (1 < p.2)) p && (fun p : Node × Nat => p.1 == v) p) :=
      fun p _ => Bool.and_comm _ _
    rw [List.filter_congr hcomm, ← List.filter_filter,
      filter_key_eq (multipleInstanceCount s) hnodup v _ hmem]
    have ht : (1 < s.nodes.count v * (s.nodes.count v - 1)) := by omega
    simp [ht]
  have hfilterAll : (allValidationErrors s).filter (isMultipleInstancesErrorFor v)
      = [ValidationError.multipleInstancesOfSameNode
          (s.nodes.count v * (s.nodes.count v - 1)) v] := by
    rw [filter_allValidationErrors_multiInstances, hchunk]
  have hne : (allValidationErrors s).isEmpty = false := by
    rcases hEE : allValidationErrors s with _ | ⟨e, es⟩
    · rw [hEE] at hfilterAll
      simp at hfilterAll
    · rfl
  have hsnd : (IsValid s).2 = allValidationErrors s := by
    simp [IsValid, hne]
  rw [hsnd, hfilterAll]

theorem multipleInstances_exactly_one_error_witness :
    (IsValid doubleNodeSystem).2.filter (isMultipleInstancesErrorFor exNodeA)
      = [ValidationError.multipleInstancesOfSameNode 2 exNodeA] := by
  rw [multipleInstances_exactly_one_error doubleNodeSystem exNodeA (by decide)]
  decide

/-- C6: for every node system and node n whose configured join mode is None,
`IsValid` returns a multiple-links error for n exactly when n has at least two
inbound links (counting every added link, parallel links included). -/
theorem multipleLinks_error_iff_two_inbound (s : NodeSystem) (n : Node)
    (hjm : JoinModeOfNode s n = JoinNone) :
    ((IsValid s).2.any (isMultipleLinksErrorFor n) = true)
      ↔ 2 ≤ s.links.countP (fun link => link.To == n) := by
  have hcnt := countOf_linkToCount s n
  have hnodup := nodup_keys_linkToCount s
  have hchunk : ((checkForMultipleLinksToNodeWithoutJoinMode s).any
        (isMultipleLinksErrorFor n) = true)
      ↔ 2 ≤ s.links.countP (fun link => link.To == n) := by
    unfold checkForMultipleLinksToNodeWithoutJoinMode
    rw [any_map_general]
    constructor
    · intro h
      rcases List.any_eq_true.mp h with ⟨p, hp, hkey⟩
      rcases List.mem_filter.mp hp with ⟨hpmem, hpred⟩
      have hk : p.1 = n := beq_iff_eq.mp hkey
      have hval : countOf (linkToCount s) p.1 = p.2 :=
        countOf_eq_of_mem _ hnodup _ _ hpmem
      rw [hk, hcnt] at hval
      rw [Bool.and_eq_true] at hpred
      have h2 : 1 < p.2 := of_decide_eq_true hpred.1
      omega
    · intro h
      apply List.any_eq_true.mpr
      refine ⟨(n, countOf (linkToCount s) n),
        List.mem_filter.mpr ⟨countOf_pos_mem _ _ (by omega), ?_⟩, ?_⟩
      · rw [Bool.and_eq_true]
        refine ⟨decide_eq_true (by omega), ?_⟩
        simp [hjm]
      · simp [isMultipleLinksErrorFor]
  by_cases hE : (allValidationErrors s).isEmpty
  · have hnil : allValidationErrors s = [] := List.isEmpty_iff.mp hE
    have hsub : checkForMultipleLinksToNodeWithoutJoinMode s = [] := by
      unfold allValidationErrors at hnil
      simp only [List.append_eq_nil] at hnil
      exact hnil.2
    have hLhs : (IsValid s).2 = [] := by
      simp [IsValid, hE, hnil]
    rw [hLhs]
    constructor
    · intro hc
      simp at hc
    · intro hc
      have hany := hchunk.mpr hc
      rw [hsub] at hany
      simp at hany
  · have hneq : (allValidationErrors s).isEmpty = false := by
      cases hb : (allValidationErrors s).isEmpty
      · rfl
      · exact absurd hb hE
    have hLhs : (IsValid s).2 = allValidationErrors s := by
      simp [IsValid, hneq]
    rw [hLhs, any_allValidationErrors_multiLinks]
    exact hchunk

theorem multipleLinks_error_iff_two_inbound_witness :
    JoinModeOfNode fanInSystem exNodeB = JoinNone
    ∧ (((IsValid fanInSystem).2.any (isMultipleLinksErrorFor exNodeB) = true)
        ↔ 2 ≤ fanInSystem.links.countP (fun link => link.To == exNodeB)) :=
  ⟨by decide, multipleLinks_error_iff_two_inbound fanInSystem exNodeB (by decide)⟩

theorem length_filter_le_of_imp {α : Type} (p q : α → Bool) (l : List α)
    (himp : ∀ a, q a = true → p a = true) :
    (l.filter q).length ≤ (l.filter p).length := by
  induction l with
  | nil => simp
  | cons a tail ih =>
    rw [List.filter_cons, List.filter_cons]
    cases hq : q a <;> cases hp : p a
    · simp
      omega
    · simp
      omega
    · exact absurd (himp a hq) (by simp [hp])
    · simp
      omega

theorem length_filter_lt {α : Type} (p q : α → Bool) (l : List α)
    (himp : ∀ a, q a = true → p a = true) (x : α) (hx : x ∈ l)
    (hpx : p x = true) (hqx : q x = false) :
    (l.filter q).length < (l.filter p).length := by
  induction l with
  | nil => simp at hx
  | cons a tail ih =>
    rw [List.filter_cons, List.filter_cons]
    rcases List.mem_cons.mp hx with rfl | hxtail
    · have hle := length_filter_le_of_imp p q tail himp
      simp [hpx, hqx]
      omega
    · cases hq : q a
      · cases hp : p a
        · simp only [Bool.false_eq_true, if_false]
          exact ih hxtail
        · have hlt := ih hxtail
          simp
          omega
      · have hp := himp a hq
        have hlt := ih hxtail
        simp [hp]
        omega

theorem mapM_option_isSome {α β : Type} (f : α → Option β) (l : List α)
    (h : ∀ a ∈ l, (f a).isSome = true) : (l.mapM f).isSome = true := by
  induction l with
  | nil => rfl
  | cons a tail ih =>
    rw [List.mapM_cons]
    have ha := h a (List.mem_cons_self a tail)
    rcases Option.isSome_iff_exists.mp ha with ⟨b, hb⟩
    have htail := ih (fun x hx => h x (List.mem_cons_of_mem a hx))
    rcases Option.isSome_iff_exists.mp htail with ⟨bs, hbs⟩
    rw [hb, hbs]
    rfl

theorem findCycleF_succ_def (fuel : Nat) (s : NodeSystem) (topNode currentNode : Node)
    (walked : List nodeLink) :
    findCycleF (fuel + 1) s topNode currentNode walked
      = if !walked.isEmpty && topNode == currentNode then some [walked]
        else if !walked.isEmpty && walked.any (fun link => currentNode == link.From) then some []
        else if (s.links.filter (fun link => link.From == currentNode)).isEmpty then some []
        else
          match (s.links.filter (fun link => link.From == currentNode)).mapM (fun link =>
              findCycleF fuel s topNode link.To (walked ++ [link])) with
          | none => none
          | some cycles => some cycles.flatten := rfl

theorem findCycleF_isSome_of_lt (fuel : Nat) :
    ∀ (s : NodeSystem) (topNode currentNode : Node) (walked : List nodeLink),
      (s.links.filter (fun link =>
          !(walked.any (fun w => w.From == link.From)))).length < fuel →
      (findCycleF fuel s topNode currentNode walked).isSome = true := by
  induction fuel with
  | zero =>
    intro s top cur walked h
    exact absurd h (Nat.not_lt_zero _)
  | succ fuel ih =>
    intro s top cur walked h
    rw [findCycleF_succ_def]
    by_cases h1 : (!walked.isEmpty && top == cur) = true
    · rw [if_pos h1]
      rfl
    · rw [if_neg h1]
      by_cases h2 : (!walked.isEmpty && walked.any (fun link => cur == link.From)) = true
      · rw [if_pos h2]
        rfl
      · rw [if_neg h2]
        by_cases h3 : (s.links.filter (fun link => link.From == cur)).isEmpty = true
        · rw [if_pos h3]
          rfl
        · rw [if_neg h3]
          have hnotwalked : ∀ w ∈ walked, (w.From == cur) = false := by
            intro w hw
            by_cases hwnil : walked.isEmpty = true
            · rw [List.isEmpty_iff] at hwnil
              rw [hwnil] at hw
              simp at hw
            · have hne : (!walked.isEmpty) = true := by
                cases hb : walked.isEmpty
                · rfl
                · exact absurd hb hwnil
              have hany : walked.any (fun link => cur == link.From) = false := by
                cases hb : walked.any (fun link => cur == link.From)
                · rfl
                · exact absurd (by rw [Bool.and_eq_true]; exact ⟨hne, hb⟩) h2
              have hw2 := List.any_eq_false.mp hany w hw
              cases hbeq : (w.From == cur)
              · rfl
              · exact absurd (beq_iff_eq.mpr ((beq_iff_eq.mp hbeq).symm)) hw2
          have hall : ∀ link ∈ s.links.filter (fun link => link.From == cur),
              (findCycleF fuel s top link.To (walked ++ [link])).isSome = true := by
            intro link hlink
            rcases List.mem_filter.mp hlink with ⟨hmemlinks, hfrom⟩
            have hfromeq : link.From = cur := beq_iff_eq.mp hfrom
            apply ih
            have himp : ∀ a : nodeLink,
                (!((walked ++ [link]).any (fun w => w.From == a.From))) = true →
                (!(walked.any (fun w => w.From == a.From))) = true := by
              intro a ha
              rw [Bool.not_eq_true'] at ha ⊢
              rw [List.any_append] at ha
              exact (Bool.or_eq_false_iff.mp ha).1
            have hpx : (!(walked.any (fun w => w.From == link.From))) = true := by
              have hfalse : walked.any (fun w => w.From == link.From) = false := by
                apply List.any_eq_false.mpr
                intro x hx
                rw [hfromeq, hnotwalked x hx]
                simp
              rw [hfalse]
              rfl
            have hqx : (!((walked ++ [link]).any (fun w => w.From == link.From))) = false := by
              have htrue : ((walked ++ [link]).any (fun w => w.From == link.From)) = true := by
                apply List.any_eq_true.mpr
                exact ⟨link, List.mem_append.mpr (Or.inr (by simp)), by simp⟩
              rw [htrue]
              rfl
            have hstrict := length_filter_lt
              (fun l => !(walked.any (fun w => w.From == l.From)))
              (fun l => !((walked ++ [link]).any (fun w => w.From == l.From)))
              s.links himp link hmemlinks hpx hqx
            omega
          have hsome := mapM_option_isSome _ _ hall
          rcases Option.isSome_iff_exists.mp hsome with ⟨cycles, hcycles⟩
          rw [hcycles]
          rfl

/-- C10 (amended): the cycle search of `IsValid` terminates on every node
system: from any walked-link list the recursion depth of `findCycle` is
bounded by the number of links plus one (each recursive call adds a link with a
fresh from node, and there are at most `s.links.length` of those), so running
it with that much fuel never exhausts the fuel and computes `findCycle`.  The
bound is the number of links, not the number of nodes: a walk may pass through
link endpoints that are not declared in `nodes`. -/
theorem findCycle_terminates (s : NodeSystem) (topNode currentNode : Node)
    (walked : List nodeLink) :
    (findCycleF (s.links.length + 1) s topNode currentNode walked).isSome = true
    ∧ findCycleF (s.links.length + 1) s topNode currentNode walked
        = some (findCycle s topNode currentNode walked) := by
  have h : (findCycleF (s.links.length + 1) s topNode currentNode walked).isSome = true := by
    apply findCycleF_isSome_of_lt
    have hle := List.length_filter_le
      (fun link => !(walked.any (fun w => w.From == link.From))) s.links
    omega
  refine ⟨h, ?_⟩
  rcases Option.isSome_iff_exists.mp h with ⟨r, hr⟩
  unfold findCycle
  rw [hr]
  rfl
